import Mathlib

/-!
Verification of the control-plane core of the nginx Kubernetes Gateway
controller, following the repository sources. The repository ships the unit
tests of the configuration builder (TestBuildConfiguration, TestGetPath,
TestMatchRuleGetMatch), of the nginx config generator (TestGenerate,
TestGenerateProxyPass, TestGetBackendAddress, TestCreateHTTPMatch and
friends) and the status updater implementation. The builder and generator
function bodies themselves are not part of the source tree, so they are
modelled from the specification; the in-tree tests pin their behaviour on
concrete inputs. Strings are compared character-wise (byte-wise in Go; the
two orders agree on UTF-8 encoded text).
-/

/-! ## Character-level string ordering and lowercasing

Go compares strings byte-wise and lowercases header names with
strings.ToLower. We model these on the character list underlying a string,
which the kernel can evaluate. -/

def dataLt : List Char → List Char → Bool
  | _, [] => false
  | [], _ :: _ => true
  | a :: as, b :: bs => if a < b then true else if b < a then false else dataLt as bs

def strLt (a b : String) : Bool := dataLt a.data b.data

def strLe (a b : String) : Bool := strLt a b || a == b

/-- Modelled from the spec: ASCII lowercasing of a single character, the
fragment of strings.ToLower exercised by header names. -/
def lowerChar (c : Char) : Char :=
  if 65 ≤ c.toNat ∧ c.toNat ≤ 90 then Char.ofNat (c.toNat + 32) else c

/-- Modelled from the spec: strings.ToLower restricted to ASCII. -/
def lowerStr (s : String) : String := ⟨s.data.map lowerChar⟩

theorem dataLt_irrefl : ∀ l : List Char, dataLt l l = false
  | [] => rfl
  | a :: as => by simp [dataLt, dataLt_irrefl as]

theorem dataLt_trans :
    ∀ a b c : List Char, dataLt a b = true → dataLt b c = true → dataLt a c = true
  | _, [], _, h, _ => by simp [dataLt] at h
  | _ :: _, _, [], _, h => by simp [dataLt] at h
  | [], _ :: _, [], _, h => by simp [dataLt] at h
  | [], _ :: _, _ :: _, _, _ => by simp [dataLt]
  | a :: as, b :: bs, c :: cs, h₁, h₂ => by
    simp only [dataLt] at h₁ h₂ ⊢
    by_cases hab : a < b
    · by_cases hbc : b < c
      · simp [lt_trans hab hbc]
      · by_cases hcb : c < b
        · simp [hbc, hcb] at h₂
        · have hbe : b = c := le_antisymm (not_lt.mp hcb) (not_lt.mp hbc)
          subst hbe
          simp [hab]
    · by_cases hba : b < a
      · simp [hab, hba] at h₁
      · have hae : a = b := le_antisymm (not_lt.mp hba) (not_lt.mp hab)
        subst hae
        simp only [hab, if_neg, lt_irrefl, if_false] at h₁ ⊢
        by_cases hac : a < c
        · simp [hac]
        · by_cases hca : c < a
          · simp [hac, hca] at h₂
          · simp only [hac, hca, if_false] at h₂ ⊢
            exact dataLt_trans as bs cs h₁ h₂

theorem dataLt_asymm :
    ∀ a b : List Char, dataLt a b = true → dataLt b a = false
  | _, [], h => by simp [dataLt] at h
  | [], _ :: _, _ => by simp [dataLt]
  | a :: as, b :: bs, h => by
    simp only [dataLt] at h ⊢
    by_cases hab : a < b
    · simp [asymm hab, hab]
    · by_cases hba : b < a
      · simp [hab, hba] at h
      · simp only [hab, hba, if_false] at h ⊢
        exact dataLt_asymm as bs h

theorem dataLt_total_ne :
    ∀ a b : List Char, a ≠ b → (dataLt a b || dataLt b a) = true
  | [], [], h => absurd rfl h
  | [], _ :: _, _ => by simp [dataLt]
  | _ :: _, [], _ => by simp [dataLt]
  | a :: as, b :: bs, h => by
    simp only [dataLt]
    rcases lt_trichotomy a b with hab | hab | hab
    · simp [hab]
    · subst hab
      have hne : as ≠ bs := by
        intro he
        exact h (by rw [he])
      have := dataLt_total_ne as bs hne
      simp only [lt_irrefl, if_false]
      simpa using this
    · simp [hab, asymm hab]

theorem string_eq_of_data {a b : String} (h : a.data = b.data) : a = b := by
  cases a
  cases b
  simp_all

theorem strLt_irrefl (a : String) : strLt a a = false := dataLt_irrefl a.data

theorem strLt_trans {a b c : String} (h₁ : strLt a b = true) (h₂ : strLt b c = true) :
    strLt a c = true := dataLt_trans a.data b.data c.data h₁ h₂

theorem strLt_asymm {a b : String} (h : strLt a b = true) : strLt b a = false :=
  dataLt_asymm a.data b.data h

theorem strLt_total_ne {a b : String} (h : a ≠ b) : (strLt a b || strLt b a) = true :=
  dataLt_total_ne a.data b.data (fun he => h (string_eq_of_data he))

theorem strLt_ne {a b : String} (h : strLt a b = true) : a ≠ b := by
  intro he
  subst he
  rw [strLt_irrefl] at h
  exact Bool.false_ne_true h

theorem strLe_refl (a : String) : strLe a a = true := by
  simp [strLe]

theorem strLe_trans {a b c : String} (h₁ : strLe a b = true) (h₂ : strLe b c = true) :
    strLe a c = true := by
  simp only [strLe, Bool.or_eq_true, beq_iff_eq] at h₁ h₂ ⊢
  rcases h₁ with h₁ | h₁
  · rcases h₂ with h₂ | h₂
    · exact Or.inl (strLt_trans h₁ h₂)
    · subst h₂
      exact Or.inl h₁
  · subst h₁
    exact h₂

theorem strLe_total (a b : String) : (strLe a b || strLe b a) = true := by
  by_cases h : a = b
  · subst h
    simp [strLe_refl]
  · have := strLt_total_ne h
    simp only [strLe, Bool.or_eq_true] at *
    tauto

theorem strLt_of_strLe_of_ne {a b : String} (h₁ : strLe a b = true) (h₂ : a ≠ b) :
    strLt a b = true := by
  simp only [strLe, Bool.or_eq_true, beq_iff_eq] at h₁
  tauto

/-! ## Generic lexicographic comparator combinator -/

def lexStep {α β : Type} [DecidableEq β] (f : α → β) (ltb : β → β → Bool)
    (le : α → α → Bool) (a b : α) : Bool :=
  if f a = f b then le a b else ltb (f a) (f b)

theorem lexStep_trans {α β : Type} [DecidableEq β] (f : α → β) (ltb : β → β → Bool)
    (le : α → α → Bool)
    (hltt : ∀ x y z, ltb x y = true → ltb y z = true → ltb x z = true)
    (hlti : ∀ x, ltb x x = false)
    (hlet : ∀ x y z, le x y = true → le y z = true → le x z = true) :
    ∀ a b c, lexStep f ltb le a b = true → lexStep f ltb le b c = true →
      lexStep f ltb le a c = true := by
  intro a b c h₁ h₂
  simp only [lexStep] at h₁ h₂ ⊢
  by_cases hab : f a = f b
  · by_cases hbc : f b = f c
    · rw [if_pos (hab.trans hbc)]
      rw [if_pos hab] at h₁
      rw [if_pos hbc] at h₂
      exact hlet a b c h₁ h₂
    · rw [hab]
      rw [if_neg hbc] at h₂ ⊢
      exact h₂
  · by_cases hbc : f b = f c
    · rw [← hbc]
      rw [if_neg hab] at h₁ ⊢
      exact h₁
    · rw [if_neg hab] at h₁
      rw [if_neg hbc] at h₂
      have hlt := hltt _ _ _ h₁ h₂
      by_cases hac : f a = f c
      · rw [hac] at hlt
        rw [hlti] at hlt
        exact absurd hlt Bool.false_ne_true
      · rw [if_neg hac]
        exact hlt

theorem lexStep_total {α β : Type} [DecidableEq β] (f : α → β) (ltb : β → β → Bool)
    (le : α → α → Bool)
    (hltto : ∀ x y, x ≠ y → (ltb x y || ltb y x) = true)
    (hleto : ∀ x y, (le x y || le y x) = true) :
    ∀ a b, (lexStep f ltb le a b || lexStep f ltb le b a) = true := by
  intro a b
  simp only [lexStep]
  by_cases hab : f a = f b
  · rw [if_pos hab, if_pos hab.symm]
    exact hleto a b
  · rw [if_neg hab, if_neg (fun h => hab h.symm)]
    exact hltto _ _ hab

def natLtB (a b : Nat) : Bool := decide (a < b)

theorem natLtB_trans (x y z : Nat) (h₁ : natLtB x y = true) (h₂ : natLtB y z = true) :
    natLtB x z = true := by
  simp only [natLtB, decide_eq_true_eq] at *
  omega

theorem natLtB_irrefl (x : Nat) : natLtB x x = false := by
  simp [natLtB]

theorem natLtB_total (x y : Nat) (h : x ≠ y) : (natLtB x y || natLtB y x) = true := by
  simp only [natLtB, Bool.or_eq_true, decide_eq_true_eq]
  omega

/-! ## Gateway API data model (sigs.k8s.io/gateway-api HTTPRoute fragment) -/

inductive MatchType
  | Exact
  | RegularExpression
deriving DecidableEq, Inhabited

structure HTTPPathMatch where
  value : Option String
deriving DecidableEq, Inhabited

structure HTTPHeaderMatch where
  type : MatchType
  name : String
  value : String
deriving DecidableEq, Inhabited

structure HTTPQueryParamMatch where
  type : MatchType
  name : String
  value : String
deriving DecidableEq, Inhabited

structure HTTPBackendRef where
  group : Option String
  kind : Option String
  name : String
  ns : Option String
  port : Option Nat
deriving DecidableEq, Inhabited

structure HTTPRouteMatch where
  path : Option HTTPPathMatch
  method : Option String
  headers : List HTTPHeaderMatch
  queryParams : List HTTPQueryParamMatch
deriving DecidableEq, Inhabited

structure HTTPRouteRule where
  matchesList : List HTTPRouteMatch
  backendRefs : List HTTPBackendRef
deriving DecidableEq, Inhabited

structure HTTPRoute where
  ns : String
  name : String
  hostnames : List String
  rules : List HTTPRouteRule
deriving DecidableEq, Inhabited

/-! ## State types of package state (Configuration, graph)

These mirror the types used by TestBuildConfiguration in the sources. -/

structure SSL where
  certificatePath : String
deriving DecidableEq, Inhabited

structure MatchRule where
  matchIdx : Nat
  ruleIdx : Nat
  source : HTTPRoute
deriving DecidableEq, Inhabited

structure PathRule where
  path : String
  matchRules : List MatchRule
deriving DecidableEq, Inhabited

structure VirtualServer where
  hostname : String
  pathRules : List PathRule
  ssl : Option SSL
deriving DecidableEq, Inhabited

structure Configuration where
  httpServers : List VirtualServer
  sslServers : List VirtualServer
deriving DecidableEq, Inhabited

inductive Protocol
  | HTTP
  | HTTPS
deriving DecidableEq, Inhabited

structure Listener where
  name : String
  protocol : Protocol
  valid : Bool
  secretPath : String
  routes : List HTTPRoute
  acceptedHostnames : List String
deriving DecidableEq, Inhabited

structure GatewayClass where
  valid : Bool
  errorMsg : String
deriving DecidableEq, Inhabited

structure Gateway where
  listeners : List Listener
deriving DecidableEq, Inhabited

structure Graph where
  gatewayClass : Option GatewayClass
  gateway : Option Gateway
deriving DecidableEq, Inhabited

/-- Path of a match: the path value, or "/" when the path or its value is
absent or empty. Behaviour pinned by TestGetPath in the sources. -/
def getPath (p : Option HTTPPathMatch) : String :=
  match p with
  | none => "/"
  | some pm =>
    match pm.value with
    | none => "/"
    | some v => if v = "" then "/" else v

/-! ## Configuration builder (buildConfiguration)

Modelled from the spec: the body of buildConfiguration is not in the source
tree (only TestBuildConfiguration is). Per spec I5 and section 4.5, virtual
servers are sorted by hostname ascending, path rules by path ascending, and
match rules within a path by (route namespace, route name, ruleIdx,
matchIdx) ascending; routes contribute entries only for hostnames accepted
by the listener, and only valid listeners contribute. -/

structure Entry where
  hostname : String
  path : String
  rule : MatchRule
deriving DecidableEq, Inhabited

def routeLe : HTTPRoute → HTTPRoute → Bool :=
  lexStep (fun r => r.ns) strLt (lexStep (fun r => r.name) strLt (fun _ _ => true))

def ruleLe : MatchRule → MatchRule → Bool :=
  lexStep (fun m => m.source.ns) strLt
    (lexStep (fun m => m.source.name) strLt
      (lexStep (fun m => m.ruleIdx) natLtB
        (fun a b => decide (a.matchIdx ≤ b.matchIdx))))

def sortedDedup (l : List String) : List String := l.dedup.mergeSort strLe

def routeEntries (accepted : List String) (r : HTTPRoute) : List Entry :=
  (List.range r.rules.length).flatMap fun ri =>
    (List.range ((r.rules.getD ri default).matchesList.length)).flatMap fun mi =>
      (r.hostnames.filter fun h => decide (h ∈ accepted)).map fun h =>
        { hostname := h
          path := getPath (((r.rules.getD ri default).matchesList.getD mi default).path)
          rule := { matchIdx := mi, ruleIdx := ri, source := r } }

def listenerEntries (l : Listener) : List Entry :=
  (l.routes.mergeSort routeLe).flatMap (routeEntries l.acceptedHostnames)

def entriesFor (p : Protocol) (gw : Gateway) : List Entry :=
  (gw.listeners.filter fun l => l.valid && decide (l.protocol = p)).flatMap listenerEntries

def hostnamesOf (es : List Entry) : List String := sortedDedup (es.map Entry.hostname)

def pathsFor (es : List Entry) (h : String) : List String :=
  sortedDedup ((es.filter fun e => decide (e.hostname = h)).map Entry.path)

def buildMatchRules (es : List Entry) (h p : String) : List MatchRule :=
  ((es.filter fun e => decide (e.hostname = h) && decide (e.path = p)).map Entry.rule).mergeSort
    ruleLe

def sslFor (gw : Gateway) (h : String) : Option SSL :=
  (gw.listeners.find? fun l =>
      l.valid && decide (l.protocol = Protocol.HTTPS) && decide (h ∈ l.acceptedHostnames)).map
    fun l => { certificatePath := l.secretPath }

def buildServers (es : List Entry) (ssl : String → Option SSL) : List VirtualServer :=
  (hostnamesOf es).map fun h =>
    { hostname := h
      pathRules := (pathsFor es h).map fun p => { path := p, matchRules := buildMatchRules es h p }
      ssl := ssl h }

def buildConfiguration (g : Graph) : Configuration :=
  match g.gatewayClass, g.gateway with
  | some gc, some gw =>
    if gc.valid then
      { httpServers := buildServers (entriesFor Protocol.HTTP gw) fun _ => none
        sslServers := buildServers (entriesFor Protocol.HTTPS gw) (sslFor gw) }
    else { httpServers := [], sslServers := [] }
  | _, _ => { httpServers := [], sslServers := [] }

def serversOf (c : Configuration) : Protocol → List VirtualServer
  | Protocol.HTTP => c.httpServers
  | Protocol.HTTPS => c.sslServers

/-! ## Claim C2 -/

/-- C2: for every graph whose GatewayClass is absent or invalid, or whose
Gateway is absent, buildConfiguration returns an empty configuration, even
if the graph contains valid listeners with attached routes. -/
theorem buildConfiguration_empty_of_missing (g : Graph)
    (h : g.gatewayClass = none ∨ (∃ gc, g.gatewayClass = some gc ∧ gc.valid = false) ∨
      g.gateway = none) :
    buildConfiguration g = { httpServers := [], sslServers := [] } := by
  obtain ⟨ogc, ogw⟩ := g
  rcases h with h | ⟨gc, hgc, hv⟩ | h
  · simp only at h
    subst h
    rfl
  · simp only at hgc
    subst hgc
    cases ogw with
    | none => rfl
    | some gw => simp [buildConfiguration, hv]
  · simp only at h
    subst h
    cases ogc with
    | none => rfl
    | some gc => rfl

def listener80 : Listener :=
  { name := "listener-80-1"
    protocol := Protocol.HTTP
    valid := true
    secretPath := ""
    routes := [{ ns := "test", name := "hr-1", hostnames := ["foo.example.com"],
                 rules := [{ matchesList := [{ path := some { value := some "/" }, method := none,
                                               headers := [], queryParams := [] }],
                             backendRefs := [] }] }]
    acceptedHostnames := ["foo.example.com"] }

theorem buildConfiguration_empty_of_missing_witness :
    buildConfiguration { gatewayClass := none, gateway := some { listeners := [listener80] } } =
      { httpServers := [], sslServers := [] } :=
  buildConfiguration_empty_of_missing _ (Or.inl rfl)

/-! ## Ordering properties of the builder comparators -/

theorem ruleLe_trans : ∀ a b c : MatchRule,
    ruleLe a b = true → ruleLe b c = true → ruleLe a c = true := by
  apply lexStep_trans
  · exact fun x y z h₁ h₂ => strLt_trans h₁ h₂
  · exact strLt_irrefl
  · apply lexStep_trans
    · exact fun x y z h₁ h₂ => strLt_trans h₁ h₂
    · exact strLt_irrefl
    · apply lexStep_trans
      · exact natLtB_trans
      · exact natLtB_irrefl
      · intro x y z h₁ h₂
        simp only [decide_eq_true_eq] at h₁ h₂ ⊢
        omega

theorem ruleLe_total : ∀ a b : MatchRule, (ruleLe a b || ruleLe b a) = true := by
  apply lexStep_total
  · exact fun x y h => strLt_total_ne h
  · apply lexStep_total
    · exact fun x y h => strLt_total_ne h
    · apply lexStep_total
      · exact natLtB_total
      · intro x y
        simp only [Bool.or_eq_true, decide_eq_true_eq]
        omega

theorem strLe_trans_fn : ∀ x y z : String,
    strLe x y = true → strLe y z = true → strLe x z = true :=
  fun _ _ _ h₁ h₂ => strLe_trans h₁ h₂

theorem mem_sortedDedup {l : List String} {a : String} : a ∈ sortedDedup l ↔ a ∈ l := by
  simp [sortedDedup, List.mem_mergeSort, List.mem_dedup]

theorem sortedDedup_pairwise_strLt (l : List String) :
    (sortedDedup l).Pairwise fun a b => strLt a b = true := by
  have hle : (sortedDedup l).Pairwise fun a b => strLe a b = true :=
    List.sorted_mergeSort strLe_trans_fn strLe_total l.dedup
  have hnd : (sortedDedup l).Nodup :=
    ((List.mergeSort_perm l.dedup strLe).symm).nodup (List.nodup_dedup l)
  have := List.Pairwise.and hle hnd
  exact this.imp fun h => strLt_of_strLe_of_ne h.1 h.2

/-! ## Membership facts for the configuration builder -/

theorem mem_routeEntries {accepted : List String} {r : HTTPRoute} {h : String} {ri mi : Nat}
    (hh : h ∈ r.hostnames) (hacc : h ∈ accepted)
    (hri : ri < r.rules.length) (hmi : mi < (r.rules[ri]).matchesList.length) :
    ({ hostname := h
       path := getPath (((r.rules[ri]).matchesList[mi]).path)
       rule := { matchIdx := mi, ruleIdx := ri, source := r } } : Entry) ∈
      routeEntries accepted r := by
  have hget : r.rules.getD ri default = r.rules[ri] := List.getD_eq_getElem _ _ hri
  have hget2 : (r.rules[ri]).matchesList.getD mi default = (r.rules[ri]).matchesList[mi] :=
    List.getD_eq_getElem _ _ hmi
  unfold routeEntries
  rw [List.mem_flatMap]
  refine ⟨ri, List.mem_range.mpr hri, ?_⟩
  rw [List.mem_flatMap]
  refine ⟨mi, by rw [List.mem_range, hget]; exact hmi, ?_⟩
  rw [List.mem_map]
  refine ⟨h, List.mem_filter.mpr ⟨hh, by simpa using hacc⟩, ?_⟩
  rw [hget, hget2]

theorem mem_listenerEntries {l : Listener} {r : HTTPRoute} {e : Entry}
    (hr : r ∈ l.routes) (he : e ∈ routeEntries l.acceptedHostnames r) :
    e ∈ listenerEntries l := by
  unfold listenerEntries
  rw [List.mem_flatMap]
  exact ⟨r, List.mem_mergeSort.mpr hr, he⟩

theorem mem_entriesFor {p : Protocol} {gw : Gateway} {l : Listener} {e : Entry}
    (hl : l ∈ gw.listeners) (hv : l.valid = true) (hp : l.protocol = p)
    (he : e ∈ listenerEntries l) : e ∈ entriesFor p gw := by
  unfold entriesFor
  rw [List.mem_flatMap]
  exact ⟨l, List.mem_filter.mpr ⟨hl, by simp [hv, hp]⟩, he⟩

theorem buildServers_complete {es : List Entry} {ssl : String → Option SSL} {e : Entry}
    (he : e ∈ es) :
    ∃ vs ∈ buildServers es ssl, vs.hostname = e.hostname ∧
      ∃ pr ∈ vs.pathRules, pr.path = e.path ∧ e.rule ∈ pr.matchRules := by
  refine ⟨{ hostname := e.hostname
            pathRules := (pathsFor es e.hostname).map fun p =>
              { path := p, matchRules := buildMatchRules es e.hostname p }
            ssl := ssl e.hostname }, ?_, rfl, ?_⟩
  · unfold buildServers
    exact List.mem_map.mpr
      ⟨e.hostname, mem_sortedDedup.mpr (List.mem_map.mpr ⟨e, he, rfl⟩), rfl⟩
  · refine ⟨{ path := e.path, matchRules := buildMatchRules es e.hostname e.path }, ?_, rfl, ?_⟩
    · exact List.mem_map.mpr
        ⟨e.path, mem_sortedDedup.mpr
          (List.mem_map.mpr ⟨e, List.mem_filter.mpr ⟨he, by simp⟩, rfl⟩), rfl⟩
    · unfold buildMatchRules
      rw [List.mem_mergeSort]
      exact List.mem_map.mpr ⟨e, List.mem_filter.mpr ⟨he, by simp⟩, rfl⟩

theorem map_hostname_buildServers (es : List Entry) (ssl : String → Option SSL) :
    (buildServers es ssl).map VirtualServer.hostname = hostnamesOf es := by
  unfold buildServers
  rw [List.map_map]
  show List.map (fun x => x) (hostnamesOf es) = hostnamesOf es
  exact List.map_id' _


theorem buildServers_sorted (es : List Entry) (ssl : String → Option SSL) :
    ((buildServers es ssl).map VirtualServer.hostname).Pairwise (fun a b => strLt a b = true) ∧
    ∀ vs ∈ buildServers es ssl,
      (vs.pathRules.map PathRule.path).Pairwise (fun a b => strLt a b = true) ∧
      ∀ pr ∈ vs.pathRules, pr.matchRules.Pairwise fun a b => ruleLe a b = true := by
  constructor
  · rw [map_hostname_buildServers]
    exact sortedDedup_pairwise_strLt _
  · intro vs hvs
    unfold buildServers at hvs
    obtain ⟨h, hh, rfl⟩ := List.mem_map.mp hvs
    constructor
    · rw [List.map_map]
      show (List.map (fun x => x) (pathsFor es h)).Pairwise _
      rw [List.map_id']
      exact sortedDedup_pairwise_strLt _
    · intro pr hpr
      obtain ⟨p, hp, rfl⟩ := List.mem_map.mp hpr
      exact List.sorted_mergeSort ruleLe_trans ruleLe_total _

/-! ## Claim C1 -/

/-- C1: the configuration produced by buildConfiguration is deterministically
ordered: virtual servers (both HTTPServers and SSLServers) are sorted by
hostname strictly ascending by string compare; within every VirtualServer
the PathRules are sorted by path strictly ascending; the MatchRules of every
path are in order by route (namespace, name) ascending, then ruleIdx, then
matchIdx; and no match rule of an attached route with an accepted hostname is
dropped, even when two routes contribute to the same (hostname, path). -/
theorem buildConfiguration_order (g : Graph) :
    (((buildConfiguration g).httpServers.map VirtualServer.hostname).Pairwise
        (fun a b => strLt a b = true) ∧
      ((buildConfiguration g).sslServers.map VirtualServer.hostname).Pairwise
        fun a b => strLt a b = true) ∧
    (∀ vs ∈ (buildConfiguration g).httpServers ++ (buildConfiguration g).sslServers,
      (vs.pathRules.map PathRule.path).Pairwise (fun a b => strLt a b = true) ∧
      ∀ pr ∈ vs.pathRules, pr.matchRules.Pairwise fun a b => ruleLe a b = true) ∧
    ∀ gc gw, g.gatewayClass = some gc → g.gateway = some gw → gc.valid = true →
      ∀ l ∈ gw.listeners, l.valid = true →
      ∀ r ∈ l.routes, ∀ h ∈ r.hostnames, h ∈ l.acceptedHostnames →
      ∀ ri mi (hri : ri < r.rules.length) (hmi : mi < (r.rules[ri]).matchesList.length),
      ∃ vs ∈ serversOf (buildConfiguration g) l.protocol, vs.hostname = h ∧
        ∃ pr ∈ vs.pathRules,
          pr.path = getPath (((r.rules[ri]).matchesList[mi]).path) ∧
          ({ matchIdx := mi, ruleIdx := ri, source := r } : MatchRule) ∈ pr.matchRules := by
  obtain ⟨ogc, ogw⟩ := g
  cases ogc with
  | none =>
    cases ogw with
    | none =>
      refine ⟨⟨List.Pairwise.nil, List.Pairwise.nil⟩, by simp [buildConfiguration], ?_⟩
      intro gc gw hgc
      exact absurd hgc (by simp)
    | some gw =>
      refine ⟨⟨List.Pairwise.nil, List.Pairwise.nil⟩, by simp [buildConfiguration], ?_⟩
      intro gc gw hgc
      exact absurd hgc (by simp)
  | some gc =>
    cases ogw with
    | none =>
      refine ⟨⟨List.Pairwise.nil, List.Pairwise.nil⟩, by simp [buildConfiguration], ?_⟩
      intro gc' gw' _ hgw
      exact absurd hgw (by simp)
    | some gw =>
      by_cases hval : gc.valid
      · have hconf : buildConfiguration { gatewayClass := some gc, gateway := some gw } =
            { httpServers := buildServers (entriesFor Protocol.HTTP gw) fun _ => none
              sslServers := buildServers (entriesFor Protocol.HTTPS gw) (sslFor gw) } := by
          simp [buildConfiguration, hval]
        rw [hconf]
        refine ⟨⟨(buildServers_sorted _ _).1, (buildServers_sorted _ _).1⟩, ?_, ?_⟩
        · intro vs hvs
          rcases List.mem_append.mp hvs with hvs | hvs
          · exact (buildServers_sorted _ _).2 vs hvs
          · exact (buildServers_sorted _ _).2 vs hvs
        · intro gc' gw' hgc hgw hv l hl hlv r hr h hh hacc ri mi hri hmi
          cases Option.some.inj hgc
          cases Option.some.inj hgw
          have he := mem_entriesFor hl hlv rfl
            (mem_listenerEntries hr (mem_routeEntries hh hacc hri hmi))
          cases hp : l.protocol with
          | HTTP =>
            rw [hp] at he
            exact buildServers_complete he
          | HTTPS =>
            rw [hp] at he
            exact buildServers_complete he
      · have hconf : buildConfiguration { gatewayClass := some gc, gateway := some gw } =
            { httpServers := [], sslServers := [] } := by
          simp [buildConfiguration, hval]
        rw [hconf]
        refine ⟨⟨List.Pairwise.nil, List.Pairwise.nil⟩, by simp, ?_⟩
        intro gc' gw' hgc hgw hv
        cases Option.some.inj hgc
        exact absurd hv hval

def hr3 : HTTPRoute :=
  { ns := "test", name := "hr-3", hostnames := ["foo.example.com"]
    rules :=
      [ { matchesList := [{ path := some { value := some "/" }, method := none,
                            headers := [], queryParams := [] }]
          backendRefs := [] }
      , { matchesList := [{ path := some { value := some "/third" }, method := none,
                            headers := [], queryParams := [] }]
          backendRefs := [] } ] }

def hr4 : HTTPRoute :=
  { ns := "test", name := "hr-4", hostnames := ["foo.example.com"]
    rules :=
      [ { matchesList := [{ path := some { value := some "/fourth" }, method := none,
                            headers := [], queryParams := [] }]
          backendRefs := [] }
      , { matchesList := [{ path := some { value := some "/" }, method := none,
                            headers := [], queryParams := [] }]
          backendRefs := [] } ] }

def listenerC1 : Listener :=
  { name := "listener-80-1", protocol := Protocol.HTTP, valid := true, secretPath := ""
    routes := [hr4, hr3], acceptedHostnames := ["foo.example.com"] }

def graphC1 : Graph :=
  { gatewayClass := some { valid := true, errorMsg := "" }
    gateway := some { listeners := [listenerC1] } }

theorem buildConfiguration_order_witness :
    ∃ vs ∈ serversOf (buildConfiguration graphC1) Protocol.HTTP,
      vs.hostname = "foo.example.com" ∧
      ∃ pr ∈ vs.pathRules, pr.path = "/" ∧
        ({ matchIdx := 0, ruleIdx := 1, source := hr4 } : MatchRule) ∈ pr.matchRules := by
  have h := (buildConfiguration_order graphC1).2.2
    { valid := true, errorMsg := "" } { listeners := [listenerC1] } rfl rfl rfl
    listenerC1 (by simp) rfl
    hr4 (by simp [listenerC1]) "foo.example.com" (by simp [hr4]) (by simp [listenerC1])
    1 0 (by simp [hr4]) (by simp [hr4])
  simpa [listenerC1, hr4, getPath] using h

/-! ## Claim C3 -/

def pruneInvalidListeners (g : Graph) : Graph :=
  { gatewayClass := g.gatewayClass
    gateway := g.gateway.map fun gw => { listeners := gw.listeners.filter fun l => l.valid } }

theorem filter_valid_filter (p : Listener → Bool) (hp : ∀ l, l.valid = false → p l = false)
    (ls : List Listener) : (ls.filter fun l => l.valid).filter p = ls.filter p := by
  rw [List.filter_filter]
  apply List.filter_congr
  intro x _
  by_cases hv : x.valid
  · simp [hv]
  · simp [hp x (Bool.of_not_eq_true hv), Bool.of_not_eq_true hv]

theorem filter_valid_find? (p : Listener → Bool) (hp : ∀ l, l.valid = false → p l = false) :
    ∀ ls : List Listener, (ls.filter fun l => l.valid).find? p = ls.find? p
  | [] => rfl
  | l :: ls => by
    by_cases hv : l.valid
    · have hfc : (l :: ls).filter (fun l => l.valid) = l :: ls.filter fun l => l.valid := by
        simp [List.filter_cons, hv]
      rw [hfc]
      by_cases hpl : p l = true
      · rw [List.find?_cons_of_pos _ hpl, List.find?_cons_of_pos _ hpl]
      · have hpl2 : p l = false := Bool.of_not_eq_true hpl
        rw [List.find?_cons_of_neg _ (by simp [hpl2]), List.find?_cons_of_neg _ (by simp [hpl2])]
        exact filter_valid_find? p hp ls
    · have hpl := hp l (Bool.of_not_eq_true hv)
      have hfc : (l :: ls).filter (fun l => l.valid) = ls.filter fun l => l.valid := by
        simp [List.filter_cons, Bool.of_not_eq_true hv]
      rw [hfc, List.find?_cons_of_neg _ (by simp [hpl])]
      exact filter_valid_find? p hp ls

theorem entriesFor_filter_valid (p : Protocol) (gw : Gateway) :
    entriesFor p { listeners := gw.listeners.filter fun l => l.valid } = entriesFor p gw := by
  unfold entriesFor
  rw [filter_valid_filter _ (fun l hl => by simp [hl])]

theorem sslFor_filter_valid (gw : Gateway) (h : String) :
    sslFor { listeners := gw.listeners.filter fun l => l.valid } h = sslFor gw h := by
  unfold sslFor
  rw [filter_valid_find? _ (fun l hl => by simp [hl])]

/-- C3: a listener with valid set to false contributes no VirtualServer:
removing every invalid listener from the graph leaves the built
configuration unchanged, even when the invalid listeners carry attached
routes and accepted hostnames. In particular an HTTPS listener whose TLS
config is missing (hence invalid per I2) contributes nothing to SSLServers. -/
theorem buildConfiguration_ignores_invalid_listeners (g : Graph) :
    buildConfiguration (pruneInvalidListeners g) = buildConfiguration g := by
  obtain ⟨ogc, ogw⟩ := g
  cases ogc with
  | none => cases ogw <;> rfl
  | some gc =>
    cases ogw with
    | none => rfl
    | some gw =>
      by_cases hval : gc.valid
      · show buildConfiguration
            { gatewayClass := some gc
              gateway := some { listeners := gw.listeners.filter fun l => l.valid } } = _
        simp only [buildConfiguration, hval, if_pos]
        rw [entriesFor_filter_valid, entriesFor_filter_valid]
        congr 1
        exact congrArg (buildServers (entriesFor Protocol.HTTPS gw))
          (funext fun h => sslFor_filter_valid gw h)
      · simp [buildConfiguration, pruneInvalidListeners, hval]

/-! ## Nginx configuration generator (package config)

Modelled from the spec: the bodies of generate, generateProxyPass,
getBackendAddress, createPathForMatch, createHTTPMatch, isPathOnlyMatch,
generateMatchLocation, createHeaderKeyValString and
createQueryParamKeyValString are not in the source tree; only their tests
are (TestGenerate, TestGenerateProxyPass, TestGetBackendAddress,
TestGenerateMatchLocation, TestCreatePathForMatch,
TestCreateArgKeyValString, TestCreateHeaderKeyValString,
TestMatchLocationNeeded, TestCreateHTTPMatch). The definitions below follow
spec sections 4.3, 4.5, 4.10, 6 and 7 and are pinned by those tests. The
resolver (state.ServiceStore.Resolve) is modelled as a function returning an
address and an optional error; the second component of getBackendAddress
records the resolver calls made, so that claims about the resolver not
being called are statable. -/

def nginx502Server : String := "unix:/var/lib/nginx/nginx-502-server.sock"

def generateProxyPass (address : String) : String :=
  if address = "" then "http://" ++ nginx502Server else "http://" ++ address

def createPathForMatch (path : String) (routeIdx : Nat) : String :=
  path ++ "_route" ++ toString routeIdx

def createHeaderKeyValString (h : HTTPHeaderMatch) : String :=
  h.name ++ ":" ++ h.value

def createQueryParamKeyValString (q : HTTPQueryParamMatch) : String :=
  q.name ++ "=" ++ q.value

/-- A match is path-only when it carries no method, no header matches and no
query-param matches (Go: Method, Headers and QueryParams are all nil). -/
def isPathOnlyMatch (m : HTTPRouteMatch) : Bool :=
  m.method.isNone && m.headers.isEmpty && m.queryParams.isEmpty

structure httpMatch where
  any : Bool
  method : String
  headers : List String
  queryParams : List String
  redirectPath : String
deriving DecidableEq, Inhabited

/-- Header-match loop of createHTTPMatch: keep an exact-typed header whose
lowercased name was not seen before, recording seen lowercased names. -/
def keptHeaders : List HTTPHeaderMatch → List String → List HTTPHeaderMatch
  | [], _ => []
  | h :: rest, seen =>
    if h.type = MatchType.Exact then
      if lowerStr h.name ∈ seen then keptHeaders rest seen
      else h :: keptHeaders rest (lowerStr h.name :: seen)
    else keptHeaders rest seen

def createHTTPMatch (m : HTTPRouteMatch) (redirectPath : String) : httpMatch :=
  if isPathOnlyMatch m then
    { any := true, method := "", headers := [], queryParams := [], redirectPath := redirectPath }
  else
    { any := false
      method := m.method.getD ""
      headers := (keptHeaders m.headers []).map createHeaderKeyValString
      queryParams :=
        (m.queryParams.filter fun q => decide (q.type = MatchType.Exact)).map
          createQueryParamKeyValString
      redirectPath := redirectPath }

/-- Modelled from the spec: JSON escaping of one character inside a string
literal (quotes and backslashes). -/
def jsonEscapeChar (c : Char) : List Char :=
  if c = '\"' then ['\\', '\"']
  else if c = '\\' then ['\\', '\\']
  else [c]

def jsonStr (s : String) : String :=
  ⟨('\"' :: s.data.flatMap jsonEscapeChar) ++ ['\"']⟩

def joinComma : List String → String
  | [] => ""
  | [s] => s
  | s :: t :: rest => s ++ "," ++ joinComma (t :: rest)

/-- Modelled from the spec: the JSON rendering of one match descriptor with
omitempty semantics on every field, per sections 4.10 and 8 (S6). -/
def serializeHTTPMatch (m : httpMatch) : String :=
  let fields :=
    (if m.any then ["\"any\":true"] else []) ++
    (if m.method = "" then [] else ["\"method\":" ++ jsonStr m.method]) ++
    (if m.headers.isEmpty then []
     else ["\"headers\":[" ++ joinComma (m.headers.map jsonStr) ++ "]"]) ++
    (if m.queryParams.isEmpty then []
     else ["\"queryParams\":[" ++ joinComma (m.queryParams.map jsonStr) ++ "]"]) ++
    (if m.redirectPath = "" then [] else ["\"redirectPath\":" ++ jsonStr m.redirectPath])
  "\x7b" ++ joinComma fields ++ "\x7d"

def serializeMatches (ms : List httpMatch) : String :=
  "[" ++ joinComma (ms.map serializeHTTPMatch) ++ "]"

abbrev NsName := String × String

/-- The service resolver: maps a namespaced name to (address, optional
error). A successful lookup returns (address, none); a failed one returns
an error message. -/
abbrev ServiceStore := NsName → String × Option String

/-- Resolution of the first backend ref: default the namespace to the parent
namespace of the route, call the resolver, then check the port. Returns
((address, optional error), list of resolver calls made). -/
def resolveFirstRef (ref : HTTPBackendRef) (parentNS : String) (store : ServiceStore) :
    (String × Option String) × List NsName :=
  let nsname : NsName := (ref.ns.getD parentNS, ref.name)
  match store nsname with
  | (_, some e) => (("", some e), [nsname])
  | (address, none) =>
    match ref.port with
    | none => (("", some "no port number specified"), [nsname])
    | some p => ((address ++ ":" ++ toString p, none), [nsname])

def getBackendAddress (refs : List HTTPBackendRef) (parentNS : String) (store : ServiceStore) :
    (String × Option String) × List NsName :=
  match refs with
  | [] => (("", some "empty backend refs"), [])
  | ref :: _ =>
    match ref.kind with
    | some k =>
      if k = "Service" then resolveFirstRef ref parentNS store
      else (("", some ("unsupported kind " ++ k)), [])
    | none => resolveFirstRef ref parentNS store

/-- MatchRule.GetMatch: the match referenced by the rule and match indices
(behaviour pinned by TestMatchRuleGetMatch for in-range indices; out of
range indices panic in Go and yield the default here). -/
def getMatch (r : MatchRule) : HTTPRouteMatch :=
  (r.source.rules.getD r.ruleIdx default).matchesList.getD r.matchIdx default

/-- Backend address of one match rule as used by generate: the address
component is empty exactly when an error was reported. -/
def ruleBackendAddress (store : ServiceStore) (r : MatchRule) : String × Option String :=
  (getBackendAddress (r.source.rules.getD r.ruleIdx default).backendRefs r.source.ns store).1

structure Location where
  path : String
  internal : Bool
  proxyPass : String
  httpMatchVar : String
deriving DecidableEq, Inhabited

structure NginxSSL where
  certificate : String
  certificateKey : String
deriving DecidableEq, Inhabited

structure Server where
  serverName : String
  ssl : Option NginxSSL
  locations : List Location
deriving DecidableEq, Inhabited

def generateMatchLocation (path address : String) : Location :=
  { path := path, internal := true, proxyPass := generateProxyPass address, httpMatchVar := "" }

def matchDescriptors (pr : PathRule) : List httpMatch :=
  (List.range pr.matchRules.length).map fun i =>
    createHTTPMatch (getMatch (pr.matchRules.getD i default)) (createPathForMatch pr.path i)

def internalLocations (store : ServiceStore) (pr : PathRule) : List Location :=
  (List.range pr.matchRules.length).map fun i =>
    generateMatchLocation (createPathForMatch pr.path i)
      (ruleBackendAddress store (pr.matchRules.getD i default)).1

def pathRuleWarnings (store : ServiceStore) (pr : PathRule) : List (HTTPRoute × String) :=
  pr.matchRules.filterMap fun r =>
    ((ruleBackendAddress store r).2).map fun e => (r.source, e)

def dispatchLocations (store : ServiceStore) (pr : PathRule) : List Location :=
  internalLocations store pr ++
    [{ path := pr.path, internal := false, proxyPass := ""
       httpMatchVar := serializeMatches (matchDescriptors pr) }]

/-- Locations and warnings generated for one path rule: a single path-only
match yields one direct location; otherwise one internal match location per
match rule followed by one dispatch location carrying the serialized
descriptors; each match rule with a backend error contributes one warning. -/
def generateForPathRule (store : ServiceStore) (pr : PathRule) :
    List Location × List (HTTPRoute × String) :=
  match pr.matchRules with
  | [] => ([], [])
  | [r] =>
    if isPathOnlyMatch (getMatch r) then
      ([{ path := pr.path, internal := false
          proxyPass := generateProxyPass (ruleBackendAddress store r).1
          httpMatchVar := "" }], pathRuleWarnings store pr)
    else (dispatchLocations store pr, pathRuleWarnings store pr)
  | _ => (dispatchLocations store pr, pathRuleWarnings store pr)

def generate (vs : VirtualServer) (store : ServiceStore) :
    Server × List (HTTPRoute × String) :=
  ({ serverName := vs.hostname
     ssl := vs.ssl.map fun s =>
       { certificate := s.certificatePath, certificateKey := s.certificatePath }
     locations := vs.pathRules.flatMap fun pr => (generateForPathRule store pr).1 },
   vs.pathRules.flatMap fun pr => (generateForPathRule store pr).2)

/-! ## Claim C6 -/

/-- C6: generateProxyPass maps the empty backend address (the backend
resolution failure case) to the deterministic 502 placeholder upstream
http:// ++ nginx502Server, and every non-empty address to http:// ++
address; consequently a match rule whose backends cannot be resolved gets a
warning attached to its route and its internal match location proxies to the
502 placeholder. -/
theorem generateProxyPass_spec :
    generateProxyPass "" = "http://" ++ nginx502Server ∧
    (∀ a : String, a ≠ "" → generateProxyPass a = "http://" ++ a) ∧
    ∀ (store : ServiceStore) (pr : PathRule) (i : Nat) (e : String),
      i < pr.matchRules.length →
      ruleBackendAddress store (pr.matchRules.getD i default) = ("", some e) →
      ((internalLocations store pr).getD i default).proxyPass = "http://" ++ nginx502Server ∧
      ((pr.matchRules.getD i default).source, e) ∈ pathRuleWarnings store pr := by
  refine ⟨rfl, fun a ha => by simp [generateProxyPass, ha], ?_⟩
  intro store pr i e hi herr
  have hlen : i < (internalLocations store pr).length := by
    simpa [internalLocations] using hi
  constructor
  · rw [List.getD_eq_getElem _ _ hlen]
    unfold internalLocations
    rw [List.getElem_map, List.getElem_range]
    rw [herr]
    rfl
  · unfold pathRuleWarnings
    rw [List.mem_filterMap]
    refine ⟨pr.matchRules.getD i default, ?_, ?_⟩
    · rw [List.getD_eq_getElem _ _ hi]
      exact List.getElem_mem _
    · rw [herr]
      rfl

def hrC6 : HTTPRoute :=
  { ns := "test", name := "route1", hostnames := ["example.com"]
    rules :=
      [ { matchesList := [{ path := some { value := some "/" }, method := none,
                            headers := [], queryParams := [] }]
          backendRefs := [{ group := none, kind := some "Service", name := "service1",
                            ns := some "test", port := some 80 }] }
      , { matchesList := [{ path := some { value := some "/test" }, method := some "GET",
                            headers := [], queryParams := [] }]
          backendRefs := [] } ] }

def storeC6 : ServiceStore := fun _ => ("10.0.0.1", none)

def prC6 : PathRule :=
  { path := "/test", matchRules := [{ matchIdx := 0, ruleIdx := 1, source := hrC6 }] }

theorem generateProxyPass_spec_witness :
    ((internalLocations storeC6 prC6).getD 0 default).proxyPass =
      "http://" ++ nginx502Server ∧
    (hrC6, "empty backend refs") ∈ pathRuleWarnings storeC6 prC6 := by
  have h := generateProxyPass_spec.2.2 storeC6 prC6 0 "empty backend refs"
    (by decide) (by decide)
  exact h

/-! ## Claim C7 -/

theorem createHTTPMatch_redirectPath (m : HTTPRouteMatch) (p : String) :
    (createHTTPMatch m p).redirectPath = p := by
  unfold createHTTPMatch
  split <;> rfl

/-- C7: the internal redirect location synthesised for the N-th match in a
match list of path p is named p ++ "_route" ++ N (createPathForMatch p N),
and the N-th descriptor emitted for that path carries exactly that string as
its RedirectPath. -/
theorem createPathForMatch_spec (p : String) (n : Nat) (pr : PathRule) (i : Nat)
    (hi : i < pr.matchRules.length) :
    createPathForMatch p n = p ++ "_route" ++ toString n ∧
    ((matchDescriptors pr).getD i default).redirectPath = createPathForMatch pr.path i := by
  refine ⟨rfl, ?_⟩
  have hlen : i < (matchDescriptors pr).length := by simpa [matchDescriptors] using hi
  rw [List.getD_eq_getElem _ _ hlen]
  unfold matchDescriptors
  rw [List.getElem_map, List.getElem_range]
  exact createHTTPMatch_redirectPath _ _

theorem createPathForMatch_spec_witness :
    createPathForMatch "/path" 1 = "/path" ++ "_route" ++ toString 1 ∧
    ((matchDescriptors prC6).getD 0 default).redirectPath = createPathForMatch "/test" 0 :=
  createPathForMatch_spec "/path" 1 prC6 0 (by decide)

/-! ## Claim C8 -/

/-- C8: isPathOnlyMatch holds iff the match has no method, no header matches
and no query-param matches; a path rule with exactly one match that is
path-only generates a single direct location (path and proxyPass, no
internal match location, no dispatch location); any other non-empty path
rule generates one internal location per match rule plus one dispatch
location whose httpMatchVar is the serialized JSON descriptor array; and
generate emits the per-path-rule location lists in order. -/
theorem generate_location_kinds (store : ServiceStore) :
    (∀ m : HTTPRouteMatch, isPathOnlyMatch m = true ↔
        m.method = none ∧ m.headers = [] ∧ m.queryParams = []) ∧
    (∀ pr r, pr.matchRules = [r] → isPathOnlyMatch (getMatch r) = true →
      (generateForPathRule store pr).1 =
        [{ path := pr.path, internal := false
           proxyPass := generateProxyPass (ruleBackendAddress store r).1
           httpMatchVar := "" }]) ∧
    (∀ pr, pr.matchRules ≠ [] →
      (∀ r, pr.matchRules = [r] → isPathOnlyMatch (getMatch r) = false) →
      (generateForPathRule store pr).1 =
        internalLocations store pr ++
          [{ path := pr.path, internal := false, proxyPass := ""
             httpMatchVar := serializeMatches (matchDescriptors pr) }]) ∧
    ∀ vs, ((generate vs store).1).locations =
      vs.pathRules.flatMap fun pr => (generateForPathRule store pr).1 := by
  refine ⟨?_, ?_, ?_, fun vs => rfl⟩
  · intro m
    unfold isPathOnlyMatch
    constructor
    · intro h
      simp only [Bool.and_eq_true, Option.isNone_iff_eq_none, List.isEmpty_iff] at h
      exact ⟨h.1.1, h.1.2, h.2⟩
    · rintro ⟨h1, h2, h3⟩
      simp [h1, h2, h3]
  · intro pr r hpr hpo
    simp [generateForPathRule, hpr, hpo]
  · intro pr hne hsingle
    rcases hm : pr.matchRules with _ | ⟨r, _ | ⟨r2, rest⟩⟩
    · exact absurd hm hne
    · have hpo := hsingle r hm
      simp [generateForPathRule, hm, hpo, dispatchLocations]
    · simp [generateForPathRule, hm, dispatchLocations]

def hrC8 : HTTPRoute :=
  { ns := "test", name := "route1", hostnames := ["example.com"]
    rules :=
      [ { matchesList := [{ path := some { value := some "/path-only" }, method := none,
                            headers := [], queryParams := [] }]
          backendRefs := [{ group := none, kind := none, name := "service2",
                            ns := some "test", port := some 80 }] } ] }

def prC8 : PathRule :=
  { path := "/path-only", matchRules := [{ matchIdx := 0, ruleIdx := 0, source := hrC8 }] }

theorem generate_location_kinds_witness :
    (generateForPathRule storeC6 prC8).1 =
      [{ path := "/path-only", internal := false
         proxyPass :=
           generateProxyPass
             (ruleBackendAddress storeC6 { matchIdx := 0, ruleIdx := 0, source := hrC8 }).1
         httpMatchVar := "" }] ∧
    (generateForPathRule storeC6 prC6).1 =
      internalLocations storeC6 prC6 ++
        [{ path := "/test", internal := false, proxyPass := ""
           httpMatchVar := serializeMatches (matchDescriptors prC6) }] := by
  constructor
  · exact (generate_location_kinds storeC6).2.1 prC8 _ rfl (by decide)
  · refine (generate_location_kinds storeC6).2.2.1 prC6 (by decide) ?_
    intro r hr
    have hr2 : r = { matchIdx := 0, ruleIdx := 1, source := hrC6 } := by
      simpa [prC6] using hr.symm
    subst hr2
    decide

/-! ## Claim C10 -/

theorem resolveFirstRef_calls (ref : HTTPBackendRef) (parentNS : String)
    (store : ServiceStore) :
    (resolveFirstRef ref parentNS store).2 = [(ref.ns.getD parentNS, ref.name)] := by
  unfold resolveFirstRef
  rcases h : store (ref.ns.getD parentNS, ref.name) with ⟨addr, _ | e⟩
  · cases hp : ref.port <;> simp [h, hp]
  · simp [h]

theorem resolveFirstRef_no_port (ref : HTTPBackendRef) (parentNS : String)
    (store : ServiceStore) (hp : ref.port = none) :
    (resolveFirstRef ref parentNS store).1.1 = "" ∧
    ((resolveFirstRef ref parentNS store).1.2).isSome = true := by
  unfold resolveFirstRef
  rcases h : store (ref.ns.getD parentNS, ref.name) with ⟨addr, _ | e⟩
  · simp [h, hp]
  · simp [h]

/-- C10: getBackendAddress inspects only the first BackendRef of a rule: it
behaves identically on ref :: rest and on [ref]; it returns an error with an
empty address and no resolver call when the ref list is empty or when the
first ref carries a Kind other than Service; with Kind absent or Service it
calls the resolver exactly once with the namespace defaulted to the parent
namespace of the route when absent; and when the first ref has no Port it
returns an error with an empty address after the resolver call. -/
theorem getBackendAddress_spec (store : ServiceStore) (parentNS : String) :
    getBackendAddress [] parentNS store = (("", some "empty backend refs"), []) ∧
    (∀ (ref : HTTPBackendRef) (rest : List HTTPBackendRef),
      getBackendAddress (ref :: rest) parentNS store =
        getBackendAddress [ref] parentNS store) ∧
    (∀ (ref : HTTPBackendRef) (rest : List HTTPBackendRef) (k : String),
      ref.kind = some k → k ≠ "Service" →
      getBackendAddress (ref :: rest) parentNS store =
        (("", some ("unsupported kind " ++ k)), [])) ∧
    (∀ (ref : HTTPBackendRef) (rest : List HTTPBackendRef),
      ref.kind = none ∨ ref.kind = some "Service" →
      (getBackendAddress (ref :: rest) parentNS store).2 =
        [(ref.ns.getD parentNS, ref.name)]) ∧
    ∀ (ref : HTTPBackendRef) (rest : List HTTPBackendRef),
      ref.kind = none ∨ ref.kind = some "Service" → ref.port = none →
      (getBackendAddress (ref :: rest) parentNS store).1.1 = "" ∧
      ((getBackendAddress (ref :: rest) parentNS store).1.2).isSome = true := by
  refine ⟨rfl, ?_, ?_, ?_, ?_⟩
  · intro ref rest
    rfl
  · intro ref rest k hk hkne
    simp [getBackendAddress, hk, hkne]
  · intro ref rest h
    rcases h with h | h <;> simp [getBackendAddress, h, resolveFirstRef_calls]
  · intro ref rest h hp
    rcases h with h | h <;>
      simpa [getBackendAddress, h] using resolveFirstRef_no_port ref parentNS store hp

def refNormal : HTTPBackendRef :=
  { group := some "networking.k8s.io", kind := some "Service", name := "service1",
    ns := some "test", port := some 80 }

def refSecond : HTTPBackendRef :=
  { group := some "networking.k8s.io", kind := some "Service", name := "service2",
    ns := some "test", port := some 80 }

def refNotService : HTTPBackendRef :=
  { group := some "networking.k8s.io", kind := some "NotService", name := "service1",
    ns := some "test", port := some 80 }

def refNoPort : HTTPBackendRef :=
  { group := some "networking.k8s.io", kind := some "Service", name := "service1",
    ns := none, port := none }

theorem getBackendAddress_spec_witness :
    getBackendAddress [] "test" storeC6 = (("", some "empty backend refs"), []) ∧
    getBackendAddress [refNormal, refSecond] "test" storeC6 =
      getBackendAddress [refNormal] "test" storeC6 ∧
    getBackendAddress [refNotService] "test" storeC6 =
      (("", some ("unsupported kind " ++ "NotService")), []) ∧
    (getBackendAddress [refNoPort] "test" storeC6).2 = [("test", "service1")] ∧
    (getBackendAddress [refNoPort] "test" storeC6).1.1 = "" := by
  have h := getBackendAddress_spec storeC6 "test"
  refine ⟨h.1, h.2.1 refNormal [refSecond], h.2.2.1 refNotService [] "NotService" rfl ?_,
    h.2.2.2.1 refNoPort [] (Or.inr rfl), (h.2.2.2.2 refNoPort [] (Or.inr rfl) rfl).1⟩
  decide

/-! ## Header de-duplication lemmas (createHTTPMatch) -/

theorem keptHeaders_sublist :
    ∀ (hs : List HTTPHeaderMatch) (seen : List String),
      (keptHeaders hs seen).Sublist (hs.filter fun h => decide (h.type = MatchType.Exact))
  | [], _ => List.Sublist.slnil
  | h :: rest, seen => by
    by_cases ht : h.type = MatchType.Exact
    · have hf : (h :: rest).filter (fun h => decide (h.type = MatchType.Exact)) =
          h :: rest.filter fun h => decide (h.type = MatchType.Exact) := by
        simp [List.filter_cons, ht]
      rw [hf]
      unfold keptHeaders
      rw [if_pos ht]
      by_cases hs2 : lowerStr h.name ∈ seen
      · rw [if_pos hs2]
        exact (keptHeaders_sublist rest seen).cons h
      · rw [if_neg hs2]
        exact (keptHeaders_sublist rest _).cons₂ h
    · have hf : (h :: rest).filter (fun h => decide (h.type = MatchType.Exact)) =
          rest.filter fun h => decide (h.type = MatchType.Exact) := by
        simp [List.filter_cons, ht]
      rw [hf]
      unfold keptHeaders
      rw [if_neg ht]
      exact keptHeaders_sublist rest seen

theorem keptHeaders_not_seen :
    ∀ (hs : List HTTPHeaderMatch) (seen : List String) (h : HTTPHeaderMatch),
      h ∈ keptHeaders hs seen → lowerStr h.name ∉ seen
  | [], _, h, hmem => by simp [keptHeaders] at hmem
  | h0 :: rest, seen, h, hmem => by
    unfold keptHeaders at hmem
    by_cases ht : h0.type = MatchType.Exact
    · rw [if_pos ht] at hmem
      by_cases hs2 : lowerStr h0.name ∈ seen
      · rw [if_pos hs2] at hmem
        exact keptHeaders_not_seen rest seen h hmem
      · rw [if_neg hs2] at hmem
        rcases List.mem_cons.mp hmem with rfl | hmem2
        · exact hs2
        · have hrec := keptHeaders_not_seen rest _ h hmem2
          intro hcon
          exact hrec (List.mem_cons_of_mem _ hcon)
    · rw [if_neg ht] at hmem
      exact keptHeaders_not_seen rest seen h hmem

theorem keptHeaders_nodup_lower :
    ∀ (hs : List HTTPHeaderMatch) (seen : List String),
      ((keptHeaders hs seen).map fun h => lowerStr h.name).Nodup
  | [], _ => by simp [keptHeaders]
  | h0 :: rest, seen => by
    unfold keptHeaders
    by_cases ht : h0.type = MatchType.Exact
    · rw [if_pos ht]
      by_cases hs2 : lowerStr h0.name ∈ seen
      · rw [if_pos hs2]
        exact keptHeaders_nodup_lower rest seen
      · rw [if_neg hs2]
        rw [List.map_cons]
        refine List.nodup_cons.mpr ⟨?_, keptHeaders_nodup_lower rest _⟩
        intro hmem
        rcases List.mem_map.mp hmem with ⟨x, hx, hxe⟩
        have hrec := keptHeaders_not_seen rest _ x hx
        exact hrec (by rw [hxe]; exact List.mem_cons_self _ _)
    · rw [if_neg ht]
      exact keptHeaders_nodup_lower rest seen

theorem keptHeaders_represents :
    ∀ (hs : List HTTPHeaderMatch) (seen : List String) (h : HTTPHeaderMatch),
      h ∈ hs → h.type = MatchType.Exact → lowerStr h.name ∉ seen →
      ∃ h2 ∈ keptHeaders hs seen, lowerStr h2.name = lowerStr h.name
  | [], _, h, hmem, _, _ => absurd hmem (List.not_mem_nil h)
  | h0 :: rest, seen, h, hmem, hex, hns => by
    unfold keptHeaders
    by_cases ht : h0.type = MatchType.Exact
    · by_cases hs2 : lowerStr h0.name ∈ seen
      · rw [if_pos ht, if_pos hs2]
        rcases List.mem_cons.mp hmem with rfl | hmem2
        · exact absurd hs2 hns
        · exact keptHeaders_represents rest seen h hmem2 hex hns
      · rw [if_pos ht, if_neg hs2]
        by_cases heq : lowerStr h.name = lowerStr h0.name
        · exact ⟨h0, List.mem_cons_self _ _, heq.symm⟩
        · rcases List.mem_cons.mp hmem with rfl | hmem2
          · exact absurd rfl heq
          · obtain ⟨h2, hh2, he2⟩ := keptHeaders_represents rest _ h hmem2 hex (by
              intro hcon
              rcases List.mem_cons.mp hcon with he | he
              · exact heq he
              · exact hns he)
            exact ⟨h2, List.mem_cons_of_mem _ hh2, he2⟩
    · rw [if_neg ht]
      rcases List.mem_cons.mp hmem with rfl | hmem2
      · exact absurd hex ht
      · exact keptHeaders_represents rest seen h hmem2 hex hns

theorem keptHeaders_first :
    ∀ (hs : List HTTPHeaderMatch) (seen : List String) (h : HTTPHeaderMatch),
      h ∈ keptHeaders hs seen →
      hs.find? (fun x => decide (x.type = MatchType.Exact) &&
        (lowerStr x.name == lowerStr h.name)) = some h
  | [], _, h, hmem => by simp [keptHeaders] at hmem
  | h0 :: rest, seen, h, hmem => by
    unfold keptHeaders at hmem
    by_cases ht : h0.type = MatchType.Exact
    · by_cases hs2 : lowerStr h0.name ∈ seen
      · rw [if_pos ht, if_pos hs2] at hmem
        have hnot := keptHeaders_not_seen rest seen h hmem
        have hne : lowerStr h0.name ≠ lowerStr h.name := by
          intro he
          exact hnot (he ▸ hs2)
        rw [List.find?_cons_of_neg _ (by simp [hne])]
        exact keptHeaders_first rest seen h hmem
      · rw [if_pos ht, if_neg hs2] at hmem
        rcases List.mem_cons.mp hmem with rfl | hmem2
        · rw [List.find?_cons_of_pos _ (by simp [ht])]
        · have hnot := keptHeaders_not_seen rest _ h hmem2
          have hne : lowerStr h0.name ≠ lowerStr h.name := by
            intro he
            exact hnot (by rw [← he]; exact List.mem_cons_self _ _)
          rw [List.find?_cons_of_neg _ (by simp [hne])]
          exact keptHeaders_first rest _ h hmem2
    · rw [if_neg ht] at hmem
      rw [List.find?_cons_of_neg _ (by simp [ht])]
      exact keptHeaders_first rest seen h hmem

/-! ## Claim C4 -/

def dupHeaders : List HTTPHeaderMatch :=
  [ { type := MatchType.Exact, name := "header-1", value := "val-1" }
  , { type := MatchType.Exact, name := "header-2", value := "val-2" }
  , { type := MatchType.RegularExpression, name := "ignore-this-header", value := "val" }
  , { type := MatchType.Exact, name := "header-3", value := "val-3" }
  , { type := MatchType.Exact, name := "HEADER-2", value := "val-2" } ]

def dupMatch : HTTPRouteMatch :=
  { path := none, method := none, headers := dupHeaders, queryParams := [] }

/-- C4 counterexample: on the duplicate-header input of TestCreateHTTPMatch
(a second exact-typed HEADER-2 entry whose name equals an earlier exact
header-2 up to letter case), createHTTPMatch does not retain all exact-typed
header entries: the duplicate is dropped, so the produced headers differ
from the renderings of all exact-typed entries. -/
theorem createHTTPMatch_not_all_exact_headers :
    (createHTTPMatch dupMatch "/internal_loc").headers ≠
      (dupMatch.headers.filter fun h => decide (h.type = MatchType.Exact)).map
        createHeaderKeyValString := by
  decide

/-- Declarative reading of the amended claim, stated independently of the
keptHeaders loop: keep each exact-typed entry and drop every later entry
whose lowercased name equals it (and every regex-typed entry). The earliest
exact occurrence of a name is therefore the one retained. -/
def dedupHeadersSpec : List HTTPHeaderMatch → List HTTPHeaderMatch
  | [] => []
  | h :: rest =>
    if h.type = MatchType.Exact then
      h :: dedupHeadersSpec (rest.filter fun x => !(lowerStr x.name == lowerStr h.name))
    else dedupHeadersSpec rest
termination_by l => l.length
decreasing_by
  all_goals simp_wf
  all_goals exact Nat.lt_succ_of_le (List.length_filter_le _ _)

theorem dedupHeadersSpec_nil : dedupHeadersSpec [] = [] := by
  simp [dedupHeadersSpec]

theorem dedupHeadersSpec_cons_exact (h : HTTPHeaderMatch) (rest : List HTTPHeaderMatch)
    (ht : h.type = MatchType.Exact) :
    dedupHeadersSpec (h :: rest) =
      h :: dedupHeadersSpec (rest.filter fun x => !(lowerStr x.name == lowerStr h.name)) := by
  rw [dedupHeadersSpec]
  simp [ht]

theorem dedupHeadersSpec_cons_nonexact (h : HTTPHeaderMatch) (rest : List HTTPHeaderMatch)
    (ht : ¬h.type = MatchType.Exact) :
    dedupHeadersSpec (h :: rest) = dedupHeadersSpec rest := by
  rw [dedupHeadersSpec]
  simp [ht]

/-- The seen-set loop of createHTTPMatch computes dedupHeadersSpec on the
entries whose lowercased name is not yet seen. -/
theorem keptHeaders_eq_dedupHeadersSpec :
    ∀ (hs : List HTTPHeaderMatch) (seen : List String),
      keptHeaders hs seen =
        dedupHeadersSpec (hs.filter fun x => !decide (lowerStr x.name ∈ seen))
  | [], seen => by simp [keptHeaders, dedupHeadersSpec_nil]
  | h :: rest, seen => by
    by_cases hseen : lowerStr h.name ∈ seen
    · have hfc : (h :: rest).filter (fun x => !decide (lowerStr x.name ∈ seen)) =
          rest.filter fun x => !decide (lowerStr x.name ∈ seen) := by
        simp [List.filter_cons, hseen]
      rw [hfc]
      unfold keptHeaders
      by_cases ht : h.type = MatchType.Exact
      · rw [if_pos ht, if_pos hseen]
        exact keptHeaders_eq_dedupHeadersSpec rest seen
      · rw [if_neg ht]
        exact keptHeaders_eq_dedupHeadersSpec rest seen
    · have hfc : (h :: rest).filter (fun x => !decide (lowerStr x.name ∈ seen)) =
          h :: rest.filter fun x => !decide (lowerStr x.name ∈ seen) := by
        simp [List.filter_cons, hseen]
      rw [hfc]
      unfold keptHeaders
      by_cases ht : h.type = MatchType.Exact
      · rw [if_pos ht, if_neg hseen, dedupHeadersSpec_cons_exact h _ ht]
        congr 1
        rw [List.filter_filter, keptHeaders_eq_dedupHeadersSpec rest (lowerStr h.name :: seen)]
        congr 1
        apply List.filter_congr
        intro x _
        by_cases h1 : lowerStr x.name = lowerStr h.name
        · simp [h1, List.mem_cons]
        · by_cases h2 : lowerStr x.name ∈ seen <;> simp [h1, h2, List.mem_cons]
      · rw [if_neg ht, dedupHeadersSpec_cons_nonexact h _ ht]
        exact keptHeaders_eq_dedupHeadersSpec rest seen

theorem keptHeaders_eq_dedupHeadersSpec_nil_seen (hs : List HTTPHeaderMatch) :
    keptHeaders hs [] = dedupHeadersSpec hs := by
  rw [keptHeaders_eq_dedupHeadersSpec hs []]
  have hfn : (fun x : HTTPHeaderMatch => !decide (lowerStr x.name ∈ ([] : List String))) =
      fun _ => true := by
    funext x
    simp
  rw [hfn, List.filter_true]

/-- C4 (amended): createHTTPMatch omits every regex-typed header match and
every regex-typed query-param match; it retains all exact-typed query-param
entries in their original order, and retains the exact-typed header entries
in their original order except an entry whose lowercased name equals that of
an earlier retained exact-typed header: the produced headers are exactly the
renderings of dedupHeadersSpec, which keeps each exact-typed entry and drops
every later entry with the same lowercased name, so a later case-insensitive
duplicate is dropped, the earliest occurrence is the one retained, and every
exact-typed header name stays represented case-insensitively. -/
theorem createHTTPMatch_filters_regex (m : HTTPRouteMatch) (p : String) :
    (createHTTPMatch m p).queryParams =
      (m.queryParams.filter fun q => decide (q.type = MatchType.Exact)).map
        createQueryParamKeyValString ∧
    (createHTTPMatch m p).headers =
      (dedupHeadersSpec m.headers).map createHeaderKeyValString := by
  have hkept : (createHTTPMatch m p).headers =
      (keptHeaders m.headers []).map createHeaderKeyValString := by
    by_cases hpo : isPathOnlyMatch m
    · have hhe : m.headers = [] := by
        unfold isPathOnlyMatch at hpo
        simp only [Bool.and_eq_true, List.isEmpty_iff] at hpo
        exact hpo.1.2
      simp [createHTTPMatch, hpo, hhe, keptHeaders]
    · simp [createHTTPMatch, hpo]
  have hq : (createHTTPMatch m p).queryParams =
      (m.queryParams.filter fun q => decide (q.type = MatchType.Exact)).map
        createQueryParamKeyValString := by
    by_cases hpo : isPathOnlyMatch m
    · have hqe : m.queryParams = [] := by
        unfold isPathOnlyMatch at hpo
        simp only [Bool.and_eq_true, List.isEmpty_iff] at hpo
        exact hpo.2
      simp [createHTTPMatch, hpo, hqe]
    · simp [createHTTPMatch, hpo]
  refine ⟨hq, ?_⟩
  rw [hkept, keptHeaders_eq_dedupHeadersSpec_nil_seen]

/-! ## Claim C9 -/

/-- C9: createHTTPMatch de-duplicates header matches by case-insensitive
header name: the retained headers are the renderings of keptHeaders, whose
lowercased names are pairwise distinct; each retained entry is the first
exact-typed occurrence of its lowercased name in the source list; every
exact-typed header name is represented; query-param entries are not
normalized or de-duplicated this way: every exact-typed query entry is
retained in order even when names repeat. -/
theorem createHTTPMatch_dedup_headers (m : HTTPRouteMatch) (p : String) :
    (createHTTPMatch m p).headers =
      (keptHeaders m.headers []).map createHeaderKeyValString ∧
    ((keptHeaders m.headers []).map fun h => lowerStr h.name).Nodup ∧
    (∀ h ∈ keptHeaders m.headers [],
      m.headers.find? (fun x => decide (x.type = MatchType.Exact) &&
        (lowerStr x.name == lowerStr h.name)) = some h) ∧
    (∀ h ∈ m.headers, h.type = MatchType.Exact →
      ∃ h2 ∈ keptHeaders m.headers [], lowerStr h2.name = lowerStr h.name) ∧
    (createHTTPMatch m p).queryParams =
      (m.queryParams.filter fun q => decide (q.type = MatchType.Exact)).map
        createQueryParamKeyValString := by
  have hkept : (createHTTPMatch m p).headers =
      (keptHeaders m.headers []).map createHeaderKeyValString := by
    by_cases hpo : isPathOnlyMatch m
    · have hhe : m.headers = [] := by
        unfold isPathOnlyMatch at hpo
        simp only [Bool.and_eq_true, List.isEmpty_iff] at hpo
        exact hpo.1.2
      simp [createHTTPMatch, hpo, hhe, keptHeaders]
    · simp [createHTTPMatch, hpo]
  have hq : (createHTTPMatch m p).queryParams =
      (m.queryParams.filter fun q => decide (q.type = MatchType.Exact)).map
        createQueryParamKeyValString := by
    by_cases hpo : isPathOnlyMatch m
    · have hqe : m.queryParams = [] := by
        unfold isPathOnlyMatch at hpo
        simp only [Bool.and_eq_true, List.isEmpty_iff] at hpo
        exact hpo.2
      simp [createHTTPMatch, hpo, hqe]
    · simp [createHTTPMatch, hpo]
  exact ⟨hkept, keptHeaders_nodup_lower _ _, fun h hm => keptHeaders_first _ _ h hm,
    fun h hm hex => keptHeaders_represents _ _ h hm hex (List.not_mem_nil _), hq⟩

theorem createHTTPMatch_dedup_headers_witness :
    (createHTTPMatch dupMatch "/internal_loc").headers =
      (keptHeaders dupMatch.headers []).map createHeaderKeyValString ∧
    dupMatch.headers.find? (fun x => decide (x.type = MatchType.Exact) &&
      (lowerStr x.name == lowerStr "header-2")) =
      some { type := MatchType.Exact, name := "header-2", value := "val-2" } := by
  have h := createHTTPMatch_dedup_headers dupMatch "/internal_loc"
  exact ⟨h.1, h.2.2.1 { type := MatchType.Exact, name := "header-2", value := "val-2" }
    (by decide)⟩

/-! ## Status updater (package status, updaterImpl.Update)

The Update implementation is in the source tree. Its Kubernetes client is
modelled as always accepting the read and the status write; the context is
modelled as a Boolean that is true when the caller-supplied signal was
already cancelled when Update was invoked (the select on ctx.Done() then
takes the Done branch at every check). The Go maps over ignored Gateways
and HTTPRoutes are modelled as association lists. -/

structure GatewayClassStatusRec where
  valid : Bool
  errorMsg : String
  observedGeneration : Int
deriving DecidableEq, Inhabited

structure ListenerStatusRec where
  valid : Bool
  attachedRoutes : Nat
deriving DecidableEq, Inhabited

structure GatewayStatusRec where
  nsname : NsName
  listenerStatuses : List (String × ListenerStatusRec)
deriving DecidableEq, Inhabited

structure IgnoredGatewayStatusRec where
  observedGeneration : Int
deriving DecidableEq, Inhabited

structure ParentStatusRec where
  attached : Bool
deriving DecidableEq, Inhabited

structure HTTPRouteStatusRec where
  parentStatuses : List (String × ParentStatusRec)
deriving DecidableEq, Inhabited

structure Statuses where
  gatewayClassStatus : Option GatewayClassStatusRec
  gatewayStatus : Option GatewayStatusRec
  ignoredGatewayStatuses : List (NsName × IgnoredGatewayStatusRec)
  httpRouteStatuses : List (NsName × HTTPRouteStatusRec)
deriving DecidableEq, Inhabited

inductive StatusWrite
  | gatewayClass (s : GatewayClassStatusRec)
  | gateway (s : GatewayStatusRec)
  | ignoredGateway (nsname : NsName) (s : IgnoredGatewayStatusRec)
  | httpRoute (nsname : NsName) (s : HTTPRouteStatusRec)
deriving DecidableEq, Inhabited

/-- One per-resource loop of Update: before each element the cancellation
signal is checked; once it is observed the whole call returns (second
component true), leaving the element and all later ones unwritten. -/
def loopWrites (cancelled : Bool) : List StatusWrite → List StatusWrite × Bool
  | [] => ([], false)
  | w :: rest =>
    if cancelled then ([], true)
    else
      let t := loopWrites cancelled rest
      (w :: t.1, t.2)

/-- The sequence of status writes performed by updaterImpl.Update: the
GatewayClass status and the Gateway status are written unconditionally when
present in Statuses; then the ignored-Gateway statuses and the HTTPRoute
statuses are written with a cancellation check between resources, an
observed cancellation returning from the whole function. -/
def updateStatuses (cancelled : Bool) (st : Statuses) : List StatusWrite :=
  let w1 : List StatusWrite :=
    match st.gatewayClassStatus with
    | some s => [StatusWrite.gatewayClass s]
    | none => []
  let w2 : List StatusWrite :=
    match st.gatewayStatus with
    | some s => [StatusWrite.gateway s]
    | none => []
  let r3 := loopWrites cancelled
    (st.ignoredGatewayStatuses.map fun x => StatusWrite.ignoredGateway x.1 x.2)
  if r3.2 then w1 ++ w2 ++ r3.1
  else
    let r4 := loopWrites cancelled
      (st.httpRouteStatuses.map fun x => StatusWrite.httpRoute x.1 x.2)
    w1 ++ w2 ++ r3.1 ++ r4.1

theorem loopWrites_cancelled_nil : ∀ l : List StatusWrite, (loopWrites true l).1 = []
  | [] => rfl
  | _ :: _ => by simp [loopWrites]

/-! ## Claim C5 -/

/-- C5: when Update runs with an already-cancelled context, the GatewayClass
status and the chosen Gateway status are still written, while no
ignored-Gateway status and no HTTPRoute status is written: the cancellation
signal is checked only between per-resource updates and never interrupts a
write already chosen. -/
theorem updateStatuses_cancelled (st : Statuses) (gcs : GatewayClassStatusRec)
    (gws : GatewayStatusRec)
    (h1 : st.gatewayClassStatus = some gcs) (h2 : st.gatewayStatus = some gws) :
    updateStatuses true st = [StatusWrite.gatewayClass gcs, StatusWrite.gateway gws] := by
  simp only [updateStatuses, h1, h2]
  split
  · simp [loopWrites_cancelled_nil]
  · simp [loopWrites_cancelled_nil]

def statusesC5 : Statuses :=
  { gatewayClassStatus := some { valid := false, errorMsg := "error", observedGeneration := 2 }
    gatewayStatus := some { nsname := ("test", "gateway")
                            listenerStatuses := [("http", { valid := false, attachedRoutes := 1 })] }
    ignoredGatewayStatuses := [(("test", "ignored-gateway"), { observedGeneration := 2 })]
    httpRouteStatuses :=
      [(("test", "route1"), { parentStatuses := [("http", { attached := false })] })] }

theorem updateStatuses_cancelled_witness :
    updateStatuses true statusesC5 =
      [StatusWrite.gatewayClass { valid := false, errorMsg := "error", observedGeneration := 2 },
       StatusWrite.gateway { nsname := ("test", "gateway")
                             listenerStatuses :=
                               [("http", { valid := false, attachedRoutes := 1 })] }] :=
  updateStatuses_cancelled statusesC5 _ _ rfl rfl
